import Mathlib

/-!
Verification of the audio core of `tracker-visualizer`
(`src/src/components/TrackerVisualizer.jsx`).

Shallow embedding conventions:
* JS numbers are modelled by `ℚ`; every concrete computation a theorem
  evaluates is exact in IEEE double arithmetic as well (powers of two,
  small integers), so the idealisation is faithful where it is used.
* `Uint8Array` bytes are `ℕ` (each value `< 256` by construction),
  `Int16Array` samples are `ℤ`, strings are `String`.
* The transcendental `Math.log2` is an abstract parameter of the
  pitch-mapper embedding; theorems pin its value only at arguments where
  the IEEE function is exact (e.g. `log2 1 = 0`, `log2 2 = 1`,
  `log2 (1/64) = -6`).
-/

namespace TrackerVisualizer

/-! ## JavaScript numeric primitives used by the source -/

/-- JS `Math.round q`: round half toward positive infinity,
i.e. `⌊q + 1/2⌋`. -/
def jsRound (q : ℚ) : ℤ := ⌊q + 1 / 2⌋

/-- JS `%` on integers (remainder): the sign follows the dividend, so for
`b > 0` it is `sign a * (|a| mod b)` — negative for negative `a`. -/
def jsRem (a b : ℤ) : ℤ := a.sign * (a.natAbs % b.natAbs : ℕ)

/-- JS `Math.floor (a / b)` for integer `a` and positive integer `b`:
floor division. -/
def jsFloorDiv (a b : ℤ) : ℤ := Int.fdiv a b

/-- JS truncation-to-integer performed by `DataView.setInt16`
(`ToInt16` truncates toward zero before wrapping). -/
def jsTrunc (q : ℚ) : ℤ := if q < 0 then -⌊-q⌋ else ⌊q⌋

/-- JS array read `l[i]` whose result is spliced into a template literal:
an out-of-range (e.g. negative) index yields `undefined`, which the
template literal renders as the string `"undefined"`. -/
def jsIndexString (l : List String) (i : ℤ) : String :=
  if h : 0 ≤ i ∧ i.toNat < l.length then l.get ⟨i.toNat, h.2⟩ else "undefined"

/-! ## PitchMapper: `NOTE_NAMES` / `freqToNoteName` (jsx lines 21-31) -/

/-- `NOTE_NAMES` (line 21): the fixed 12-entry chromatic table, in the JS
source the single array literal
`["C", "C#", "D", "D#", "E", "F", "F#", "G", "G#", "A", "A#", "B"]`. -/
def NOTE_NAMES : List String :=
  ["C", "C#", "D", "D#", "E", "F"] ++ ["F#", "G", "G#", "A", "A#", "B"]

/-- `freqToNoteName` (lines 23-31), parametrised by the host `Math.log2`.

```js
if (!freq || freq <= 0) return "--";
const semitones = Math.round(12 * Math.log2(freq / A4));   // A4 = 440
const midi = 69 + semitones;
const note = NOTE_NAMES[midi % 12];
const octave = Math.floor(midi / 12) - 1;
return `${note}${octave}`;
```
For a rational argument `!freq` is `freq = 0`, subsumed by `freq ≤ 0`. -/
def freqToNoteName (log2 : ℚ → ℚ) (freq : ℚ) : String :=
  if freq ≤ 0 then "--"
  else
    let semitones := jsRound (12 * log2 (freq / 440))
    let midi := 69 + semitones
    let note := jsIndexString NOTE_NAMES (jsRem midi 12)
    let octave := jsFloorDiv midi 12 - 1
    note ++ toString octave

/-- The same entry point on a possibly-`undefined` argument: JS `!freq`
routes `undefined` to the sentinel branch. -/
def freqToNoteNameOpt (log2 : ℚ → ℚ) (freq : Option ℚ) : String :=
  match freq with
  | none => "--"
  | some f => freqToNoteName log2 f

/-- Spec side of C4, translated from the claim's words: semitone offset
from A4, MIDI number `69 + offset`, note letter indexed at `offset mod 12`
(mathematical, non-negative mod), octave `⌊midi / 12⌋ - 1`. -/
def noteNameSpecC4 (log2 : ℚ → ℚ) (freq : ℚ) : String :=
  if freq ≤ 0 then "--"
  else
    let offset := jsRound (12 * log2 (freq / 440))
    let midi := 69 + offset
    let note := jsIndexString NOTE_NAMES (offset % 12)
    let octave := jsFloorDiv midi 12 - 1
    note ++ toString octave

/-- Spec side of C4 as amended: identical except that the table is indexed
at `midi mod 12` under JavaScript remainder semantics. -/
def noteNameSpecC4Amended (log2 : ℚ → ℚ) (freq : ℚ) : String :=
  if freq ≤ 0 then "--"
  else
    let offset := jsRound (12 * log2 (freq / 440))
    let midi := 69 + offset
    let note := jsIndexString NOTE_NAMES (jsRem midi 12)
    let octave := jsFloorDiv midi 12 - 1
    note ++ toString octave

/-! ## PatternRenderer: `renderToBuffer` (jsx lines 440-487) -/

/-- One pattern cell `{ note, instr, vol }` (line 308). -/
structure Cell where
  note : String
  instr : String
  vol : String
deriving DecidableEq

/-- `makePattern()` (line 308): 8 channels × 64 rows of explicit silence
cells `{ note: "--", instr: "--", vol: "--" }`. -/
def makePattern : List (List Cell) :=
  List.replicate 8 (List.replicate 64 ⟨"--", "--", "--"⟩)

/-- `const sampleRate = 44100` (line 445). -/
def renderSampleRate : ℕ := 44100

/-- `const channels = 2` (line 446). -/
def renderChannels : ℕ := 2

/-- `const rowDur = (60 / bpm) / 4` (line 443): a row is a quarter of a
beat, i.e. `stepsPerBeat = 4`. -/
def rowDur (bpm : ℚ) : ℚ := 60 / bpm / 4

/-- `const estimatedSeconds = Math.min(secondsLimit, rows * rowDur + 1)`
(line 444): one second of tail past the last row. -/
def estimatedSeconds (rows : ℕ) (bpm secondsLimit : ℚ) : ℚ :=
  min secondsLimit ((rows : ℚ) * rowDur bpm + 1)

/-- The frame count handed to the buffer allocation
`new OfflineAudioContext(channels, Math.ceil(sampleRate * estimatedSeconds), sampleRate)`
(line 447). The code computes it for any `bpm ≠ 0` without validation; it
lives in `ℤ` because nothing in the code forces it non-negative. -/
def renderFrameCount (rows : ℕ) (bpm secondsLimit : ℚ) : ℤ :=
  ⌈(renderSampleRate : ℚ) * estimatedSeconds rows bpm secondsLimit⌉

/-- Dimensions of the `AudioBuffer` produced by `renderToBuffer`: an
`OfflineAudioContext` of `channels` channels and the computed frame count
at 44100 Hz — a channel holds no samples beyond `length`. -/
structure RenderedBuffer where
  sampleRate : ℕ
  numberOfChannels : ℕ
  length : ℤ

/-- `renderToBuffer(pattern, bpm, secondsLimit = 120)` (lines 440-487),
with `rows = pattern[0].length` (line 442). The function performs no
configuration validation whatsoever before allocating. The sample content
of the returned buffer is produced by the host `OfflineAudioContext`
(oscillator/gain graph, lines 449-486) and is returned by the code
without any post-processing; the claims settled against this embedding
concern the buffer geometry and the absence of validation/clamping inside
the renderer itself. -/
def renderToBuffer (pattern : List (List Cell)) (bpm : ℚ) (secondsLimit : ℚ) :
    RenderedBuffer :=
  { sampleRate := renderSampleRate
    numberOfChannels := renderChannels
    length := renderFrameCount (pattern.headD []).length bpm secondsLimit }

/-! ## WavEncoder: `audioBufferToWav` (jsx lines 490-548) -/

/-- The `AudioBuffer`/PCMBuffer as the encoder reads it: `sampleRate`,
frame count (`buffer.length`) and one f32 sample array per channel
(`buffer.getChannelData(ch)`). -/
structure PCMBuffer where
  sampleRate : ℕ
  length : ℕ
  channelData : List (List ℚ)

/-- `buffer.numberOfChannels` (line 491). -/
def PCMBuffer.numberOfChannels (b : PCMBuffer) : ℕ := b.channelData.length

/-- A valid buffer: every channel array holds exactly `length` frames. -/
def PCMBuffer.Valid (b : PCMBuffer) : Prop :=
  ∀ ch ∈ b.channelData, ch.length = b.length

instance (b : PCMBuffer) : Decidable b.Valid :=
  List.decidableBAll _ _

/-- The interleaving IIFE (lines 496-506): outer loop over frames `i`,
inner loop over channels `ch`, `result[offset++] = getChannelData(ch)[i]`. -/
def interleave (b : PCMBuffer) : List ℚ :=
  (List.range b.length).flatMap fun i => b.channelData.map fun ch => ch.getD i 0

/-- `Math.max(-1, Math.min(1, x))` (line 543). -/
def clampSample (x : ℚ) : ℚ := max (-1) (min 1 x)

/-- `view.setInt16(offset, s < 0 ? s * 0x8000 : s * 0x7fff, true)`
(line 544): asymmetric scaling, then `ToInt16` truncation toward zero. -/
def sampleToInt16 (x : ℚ) : ℤ :=
  jsTrunc (if clampSample x < 0 then clampSample x * 0x8000 else clampSample x * 0x7fff)

/-- Spec side of the float→int16 rule, translated from the claim's words:
clamp to `[-1, 1]`, scale by 32767 if non-negative and by 32768 if
negative, then truncate to an integer. -/
def sampleToInt16Spec (x : ℚ) : ℤ :=
  let c := max (-1) (min 1 x)
  if 0 ≤ c then jsTrunc (c * 32767) else jsTrunc (c * 32768)

/-- `writeString` (lines 514-518): one byte (char code) per character. -/
def writeString (s : String) : List ℕ := s.data.map Char.toNat

/-- Bytes stored by a little-endian `DataView.setUint16`. -/
def uint16le (v : ℕ) : List ℕ := [v % 256, v / 256 % 256]

/-- Bytes stored by a little-endian `DataView.setUint32`. -/
def uint32le (v : ℕ) : List ℕ :=
  [v % 256, v / 256 % 256, v / 65536 % 256, v / 16777216 % 256]

/-- Bytes stored by a little-endian `DataView.setInt16`: two's-complement
wrap, then the two bytes. -/
def int16le (v : ℤ) : List ℕ := uint16le (v % 65536).toNat

/-- `audioBufferToWav(buffer)` (lines 490-548). The `DataView` writes land
at consecutive disjoint offsets in increasing order (0, 4, 8, 12, 16, 20,
22, 24, 28, 32, 34, 36, 40, then 44 + 2i for the samples), so the final
`ArrayBuffer` is their concatenation; `format = 1`, `bitDepth = 16`,
`bytesPerSample = 2`, `blockAlign = numOfChan * 2`. -/
def audioBufferToWav (b : PCMBuffer) : List ℕ :=
  writeString "RIFF" ++
  uint32le (36 + (interleave b).length * 2) ++
  writeString "WAVE" ++
  writeString "fmt " ++
  uint32le 16 ++
  uint16le 1 ++
  uint16le b.numberOfChannels ++
  uint32le b.sampleRate ++
  uint32le (b.sampleRate * (b.numberOfChannels * 2)) ++
  uint16le (b.numberOfChannels * 2) ++
  uint16le 16 ++
  writeString "data" ++
  uint32le ((interleave b).length * 2) ++
  ((interleave b).map fun x => int16le (sampleToInt16 x)).flatten

/-- `DataView.getUint16(off, true)` over the byte list. -/
def readUint16le (l : List ℕ) (off : ℕ) : ℕ :=
  l.getD off 0 + 256 * l.getD (off + 1) 0

/-- `DataView.getUint32(off, true)` over the byte list. -/
def readUint32le (l : List ℕ) (off : ℕ) : ℕ :=
  l.getD off 0 + 256 * l.getD (off + 1) 0 + 65536 * l.getD (off + 2) 0 +
    16777216 * l.getD (off + 3) 0

/-- A small concrete stereo buffer (2 frames, one out-of-range sample)
used to instantiate the WAV-encoder theorem. -/
def wavDemoBuffer : PCMBuffer :=
  { sampleRate := 44100
    length := 2
    channelData := [[1 / 2, -3 / 2], [-1 / 2, 1 / 4]] }

/-! ## SpectralAnalyzer band energies: `HexConsoleVisualizer`
(jsx lines 938-995) -/

/-- The fixed band table (lines 954-958):
`[{BASS, [0, 64]}, {MID, [65, 256]}, {HIGH, [257, 1024]}]`. -/
def bands : List (String × ℕ × ℕ) :=
  [("BASS", 0, 64), ("MID", 65, 256), ("HIGH", 257, 1024)]

/-- `energy(arr, [start, end])` (lines 963-967):

```js
let sum = 0;
for (let i = start; i < end && i < arr.length; i++) sum += arr[i];
return sum / (end - start);
```
The loop visits exactly the indices in `[start, min end arr.length)`; the
divisor is always the full `end - start`. -/
def energy (arr : List ℕ) (r : ℕ × ℕ) : ℚ :=
  (∑ i in Finset.Ico r.1 (min r.2 arr.length), (arr.getD i 0 : ℚ)) /
    ((r.2 : ℚ) - (r.1 : ℚ))

/-- A synthetic 1024-bin magnitude frame with all energy (full-scale 255)
concentrated in bins 0-10, used to instantiate the analyzer theorems. -/
def demoMagnitudes : List ℕ := List.replicate 11 255 ++ List.replicate 1013 0

/-! ## Mp3Encoder: `wavBlobToMp3Blob` (jsx lines 551-599) -/

/-- Signed 16-bit value of two little-endian bytes (how an `Int16Array`
views the WAV data bytes). -/
def int16OfBytes (b0 b1 : ℕ) : ℤ :=
  if b0 % 256 + 256 * (b1 % 256) < 32768 then ((b0 % 256 + 256 * (b1 % 256) : ℕ) : ℤ)
  else ((b0 % 256 + 256 * (b1 % 256) : ℕ) : ℤ) - 65536

/-- `new Int16Array(arrayBuffer, 44)` (line 567): the bytes from offset 44
read pairwise as little-endian signed 16-bit samples. -/
def int16sOfBytes : List ℕ → List ℤ
  | b0 :: b1 :: rest => int16OfBytes b0 b1 :: int16sOfBytes rest
  | _ => []

/-- The stereo de-interleaving loop (lines 571-577): `left[j] = samples[2j]`
for `j < samples.length / 2`. (JS allocates `samples.length / 2` entries;
for 16-bit stereo data the sample count is even.) -/
def leftSamples (samples : List ℤ) : List ℤ :=
  (List.range (samples.length / 2)).map fun j => samples.getD (2 * j) 0

/-- The stereo de-interleaving loop (lines 571-577):
`right[j] = samples[2j + 1]`. -/
def rightSamples (samples : List ℤ) : List ℤ :=
  (List.range (samples.length / 2)).map fun j => samples.getD (2 * j + 1) 0

/-- `const chunkSize = 1152` (line 584): the MP3 frame granularity. -/
def chunkSize : ℕ := 1152

/-- The external Layer III codec capability (`lamejs.Mp3Encoder`), kept
abstract: `σ` is the codec-internal state, `init channels sampleRate kbps`
a fresh state (`new lamejs.Mp3Encoder(numChannels, sampleRate, 128)`), the
encode calls return the updated state and the emitted bytes, and `flush`
the trailing bytes. -/
structure Mp3Codec (σ : Type) where
  init : ℕ → ℕ → ℕ → σ
  encodeStereo : σ → List ℤ → List ℤ → σ × List ℕ
  encodeMono : σ → List ℤ → σ × List ℕ
  flush : σ → List ℕ

/-- The chunk loop (lines 587-594): while samples remain, hand the codec
`left.subarray(i, i + 1152)` — and for stereo the matching right
subarray — then advance by 1152; only non-empty outputs are pushed
(`if (mp3buf.length > 0) mp3Data.push(mp3buf)`). `subarray`/advance is
`take chunkSize` / `drop chunkSize` on the remaining lists. -/
def encodeLoop {σ : Type} (c : Mp3Codec σ) (stereo : Bool) :
    σ → List ℤ → List ℤ → σ × List (List ℕ)
  | s, [], _ => (s, [])
  | s, l@(_ :: _), r =>
    let step := if stereo then c.encodeStereo s (l.take chunkSize) (r.take chunkSize)
      else c.encodeMono s (l.take chunkSize)
    let rest := encodeLoop c stereo step.1 (l.drop chunkSize) (r.drop chunkSize)
    (rest.1, if step.2.isEmpty then rest.2 else step.2 :: rest.2)
termination_by _ l _ => l.length
decreasing_by rename_i hl; subst hl; simp [chunkSize]; omega

/-- Spec side of C3: the same loop with every emitted fragment kept, so
the k-th entry of the trace is exactly what the k-th codec call
returned. -/
def encodeTrace {σ : Type} (c : Mp3Codec σ) (stereo : Bool) :
    σ → List ℤ → List ℤ → σ × List (List ℕ)
  | s, [], _ => (s, [])
  | s, l@(_ :: _), r =>
    let step := if stereo then c.encodeStereo s (l.take chunkSize) (r.take chunkSize)
      else c.encodeMono s (l.take chunkSize)
    let rest := encodeTrace c stereo step.1 (l.drop chunkSize) (r.drop chunkSize)
    (rest.1, step.2 :: rest.2)
termination_by _ l _ => l.length
decreasing_by rename_i hl; subst hl; simp [chunkSize]; omega

/-- Spec side of C3: the successive `subarray(i, i + 1152)` chunks of one
channel, in increasing sample order. -/
def chunksOf : List ℤ → List (List ℤ)
  | [] => []
  | l@(_ :: _) => l.take chunkSize :: chunksOf (l.drop chunkSize)
termination_by l => l.length
decreasing_by rename_i hl; subst hl; simp [chunkSize]; omega

/-- Spec side of C3: run the codec over an explicit list of (left, right)
chunk pairs in order, keeping every emitted fragment. -/
def runChunkPairs {σ : Type} (c : Mp3Codec σ) (stereo : Bool) :
    σ → List (List ℤ × List ℤ) → σ × List (List ℕ)
  | s, [] => (s, [])
  | s, p :: ps =>
    let step := if stereo then c.encodeStereo s p.1 p.2 else c.encodeMono s p.1
    let rest := runChunkPairs c stereo step.1 ps
    (rest.1, step.2 :: rest.2)

/-- Spec side of C3 (mono): run the codec over a chunk list using only the
single-channel call. -/
def runChunksMono {σ : Type} (c : Mp3Codec σ) :
    σ → List (List ℤ) → σ × List (List ℕ)
  | s, [] => (s, [])
  | s, ch :: chs =>
    let step := c.encodeMono s ch
    let rest := runChunksMono c step.1 chs
    (rest.1, step.2 :: rest.2)

/-- `wavBlobToMp3Blob` (lines 551-599): read the channel count (offset 22)
and sample rate (offset 24) from the WAV header, view the bytes from
offset 44 as int16 samples, de-interleave when stereo (mono presents the
same array as both `left` and `right`), construct the codec
(`new lamejs.Mp3Encoder(numChannels, sampleRate, 128)`), feed it
1152-sample chunks in order, flush once after the last chunk, and
concatenate the non-empty fragments in order (`new Blob(mp3Data)`). -/
def wavBlobToMp3Blob {σ : Type} (c : Mp3Codec σ) (wav : List ℕ) : List ℕ :=
  let numChannels := readUint16le wav 22
  let sampleRate := readUint32le wav 24
  let samples := int16sOfBytes (wav.drop 44)
  let stereo := numChannels == 2
  let left := if stereo then leftSamples samples else samples
  let rgt := if stereo then rightSamples samples else samples
  let run := encodeLoop c stereo (c.init numChannels sampleRate 128) left rgt
  let endBytes := c.flush run.1
  (run.2 ++ if endBytes.isEmpty then [] else [endBytes]).flatten

/-- A small instrumented codec over state `ℕ`, used to instantiate the
MP3-framing theorem: it counts calls and sometimes emits nothing. -/
def demoCodec : Mp3Codec ℕ where
  init := fun ch rate kbps => ch + rate + kbps
  encodeStereo := fun s l r =>
    (s + 1, if s % 2 = 0 then [] else [s % 256, l.length % 256, r.length % 256])
  encodeMono := fun s l => (s + 1, [s % 256, l.length % 256])
  flush := fun s => [7, s % 256]

/-- 52 bytes: a minimal image of a stereo 16-bit WAV (channel count 2 at
offset 22, sample rate 44100 at offsets 24-27, 8 data bytes = 4 samples =
2 stereo frames). -/
def wavDemoBytes : List ℕ :=
  List.replicate 22 0 ++ [2, 0] ++ [68, 172, 0, 0] ++ List.replicate 16 0 ++
    [10, 0, 246, 255, 3, 0, 100, 0]

/-! ## Theorems: PitchMapper (claims C4, C7, C9) -/

/-- Evaluation helper: once the (transcendental) semitone computation is
pinned to a concrete integer `s`, the mapper's result is the table lookup
and octave formula at `midi = 69 + s`. -/
lemma freqToNoteName_eval (log2 : ℚ → ℚ) (freq : ℚ) (h0 : ¬ freq ≤ 0) (s : ℤ)
    (hs : jsRound (12 * log2 (freq / 440)) = s) :
    freqToNoteName log2 freq =
      jsIndexString NOTE_NAMES (jsRem (69 + s) 12) ++
        toString (jsFloorDiv (69 + s) 12 - 1) := by
  unfold freqToNoteName
  rw [if_neg h0, hs]

/-- C7: `frequencyToNote(440) = "A4"` and `frequencyToNote(880) = "A5"`
(for any host `log2` agreeing with the exact values `log2 1 = 0`,
`log2 2 = 1`), and every undefined or non-positive frequency — including
0 — returns the "no note" sentinel `"--"` rather than raising an error. -/
theorem C7_note_mapping_and_sentinel (log2 : ℚ → ℚ) :
    (log2 1 = 0 → freqToNoteName log2 440 = "A4") ∧
    (log2 2 = 1 → freqToNoteName log2 880 = "A5") ∧
    (∀ freq : ℚ, freq ≤ 0 → freqToNoteName log2 freq = "--") ∧
    freqToNoteNameOpt log2 none = "--" := by
  refine ⟨?_, ?_, ?_, rfl⟩
  · intro h
    rw [freqToNoteName_eval log2 440 (by norm_num) 0
      (by rw [show (440 : ℚ) / 440 = 1 by norm_num, h]; norm_num [jsRound])]
    decide
  · intro h
    rw [freqToNoteName_eval log2 880 (by norm_num) 12
      (by rw [show (880 : ℚ) / 440 = 2 by norm_num, h]; norm_num [jsRound])]
    decide
  · intro freq hfreq
    unfold freqToNoteName
    rw [if_pos hfreq]

theorem C7_witness :
    freqToNoteName (fun q => if q = 2 then 1 else 0) 440 = "A4" ∧
    freqToNoteName (fun q => if q = 2 then 1 else 0) 880 = "A5" ∧
    freqToNoteName (fun q => if q = 2 then 1 else 0) 0 = "--" ∧
    freqToNoteNameOpt (fun q => if q = 2 then 1 else 0) none = "--" := by
  obtain ⟨h1, h2, h3, h4⟩ := C7_note_mapping_and_sentinel (fun q => if q = 2 then 1 else 0)
  exact ⟨h1 (by norm_num), h2 (by norm_num), h3 0 (by norm_num), h4⟩

/-- C4 (amended): for every positive frequency the mapper computes
`offset = round(12 * log2(freq / 440))`, `midi = 69 + offset`, selects the
note letter by indexing the chromatic table at `midi mod 12` under
JavaScript remainder semantics (not at `offset mod 12`), and the octave as
`⌊midi / 12⌋ - 1`. -/
theorem C4_note_algorithm_amended (log2 : ℚ → ℚ) (freq : ℚ) (_h : 0 < freq) :
    freqToNoteName log2 freq = noteNameSpecC4Amended log2 freq := rfl

theorem C4_witness :
    0 < (440 : ℚ) ∧
    freqToNoteName (fun _ => 0) 440 = noteNameSpecC4Amended (fun _ => 0) 440 :=
  ⟨by norm_num, C4_note_algorithm_amended (fun _ => 0) 440 (by norm_num)⟩

/-- C4 counterexample: at 440 Hz the semitone offset is 0 (`log2 1 = 0`
exactly), so the claim's rule `NOTE_NAMES[offset mod 12]` names the note
"C4", but the code indexes the table at `midi % 12 = 69 % 12 = 9` and
returns "A4". -/
theorem C4_counterexample :
    freqToNoteName (fun _ => 0) 440 = "A4" ∧
    noteNameSpecC4 (fun _ => 0) 440 = "C4" ∧
    freqToNoteName (fun _ => 0) 440 ≠ noteNameSpecC4 (fun _ => 0) 440 := by
  have e1 : freqToNoteName (fun _ => 0) 440 = "A4" := by
    rw [freqToNoteName_eval (fun _ => 0) 440 (by norm_num) 0 (by norm_num [jsRound])]
    decide
  have e2 : noteNameSpecC4 (fun _ => 0) 440 = "C4" := by
    unfold noteNameSpecC4
    rw [if_neg (by norm_num : ¬ (440 : ℚ) ≤ 0)]
    rw [show jsRound (12 * (fun _ => (0 : ℚ)) (440 / 440)) = 0 by norm_num [jsRound]]
    decide
  refine ⟨e1, e2, ?_⟩
  rw [e1, e2]
  decide

/-- C9: at the positive frequency 6.875 Hz (= 440/2⁶, where IEEE
`Math.log2` is exact: `log2 (1/64) = -6`) the mapper's lookup index
`midi % 12` is negative (midi = -3), the out-of-range table read yields JS
`undefined`, and the returned string "undefined-2" is neither a chromatic
note name with octave nor the sentinel "--". -/
theorem C9_negative_index_bug (log2 : ℚ → ℚ) (h : log2 (1 / 64) = -6) :
    0 < (55 / 8 : ℚ) ∧
    jsRem (69 + jsRound (12 * log2 (55 / 8 / 440))) 12 < 0 ∧
    freqToNoteName log2 (55 / 8) = "undefined-2" ∧
    freqToNoteName log2 (55 / 8) ≠ "--" ∧
    ¬ ∃ nm ∈ NOTE_NAMES, ∃ oct : ℤ, freqToNoteName log2 (55 / 8) = nm ++ toString oct := by
  have hdiv : ((55 : ℚ) / 8) / 440 = 1 / 64 := by norm_num
  have hs : jsRound (12 * log2 (55 / 8 / 440)) = -72 := by
    rw [hdiv, h]; norm_num [jsRound]
  have hval : freqToNoteName log2 (55 / 8) = "undefined-2" := by
    rw [freqToNoteName_eval log2 (55 / 8) (by norm_num) (-72) hs]
    decide
  refine ⟨by norm_num, ?_, hval, ?_, ?_⟩
  · rw [hs]; decide
  · rw [hval]; decide
  · rintro ⟨nm, hmem, oct, heq⟩
    rw [hval] at heq
    have h2 : ("undefined-2").data = nm.data ++ (toString oct).data := by
      rw [heq]; rfl
    fin_cases hmem <;> injection h2 with hhd _ <;> exact absurd hhd (by decide)

theorem C9_witness :
    0 < (55 / 8 : ℚ) ∧
    jsRem (69 + jsRound (12 * (fun _ => (-6 : ℚ)) (55 / 8 / 440))) 12 < 0 ∧
    freqToNoteName (fun _ => (-6 : ℚ)) (55 / 8) = "undefined-2" ∧
    freqToNoteName (fun _ => (-6 : ℚ)) (55 / 8) ≠ "--" ∧
    ¬ ∃ nm ∈ NOTE_NAMES, ∃ oct : ℤ,
        freqToNoteName (fun _ => (-6 : ℚ)) (55 / 8) = nm ++ toString oct :=
  C9_negative_index_bug (fun _ => (-6 : ℚ)) rfl

/-! ## Theorems: PatternRenderer (claims C1, C5, C6) -/

/-- C1: for `bpm > 0` the renderer computes
`rowDuration = 60 / bpm / stepsPerBeat` with `stepsPerBeat = 4`,
`renderedDuration = min(secondsLimit, steps * rowDuration + 1)`, and
allocates `ceil(sampleRate * renderedDuration)` frames on each of its 2
audio channels; in particular a 64-step pattern at 125 BPM with
`secondsLimit` below the natural duration `64 * rowDuration + 1 = 8.68 s`
gets exactly `ceil(secondsLimit * 44100)` frames per channel — no samples
exist beyond that length. -/
theorem C1_render_buffer_sizing (pattern : List (List Cell)) (bpm secondsLimit : ℚ)
    (_hbpm : 0 < bpm) :
    (renderToBuffer pattern bpm secondsLimit).length =
      ⌈(44100 : ℚ) * min secondsLimit
        (((pattern.headD []).length : ℚ) * (60 / bpm / 4) + 1)⌉ ∧
    (renderToBuffer pattern bpm secondsLimit).numberOfChannels = 2 ∧
    (renderToBuffer pattern bpm secondsLimit).sampleRate = 44100 ∧
    ((pattern.headD []).length = 64 → bpm = 125 →
      secondsLimit < 64 * (60 / 125 / 4) + 1 →
      (renderToBuffer pattern bpm secondsLimit).length = ⌈secondsLimit * 44100⌉) := by
  refine ⟨?_, rfl, rfl, ?_⟩
  · show renderFrameCount (pattern.headD []).length bpm secondsLimit = _
    rw [renderFrameCount, estimatedSeconds, rowDur, renderSampleRate]
    norm_num
  · intro h64 h125 hlt
    subst h125
    show renderFrameCount (pattern.headD []).length 125 secondsLimit = _
    rw [renderFrameCount, estimatedSeconds, rowDur, h64]
    rw [min_eq_left (by push_cast; linarith)]
    rw [renderSampleRate]
    norm_num [mul_comm]

theorem C1_witness :
    (renderToBuffer makePattern 125 5).length = ⌈(5 : ℚ) * 44100⌉ ∧
    (renderToBuffer makePattern 125 5).numberOfChannels = 2 := by
  obtain ⟨h1, h2, h3, h4⟩ := C1_render_buffer_sizing makePattern 125 5 (by norm_num)
  exact ⟨h4 (by decide) rfl (by norm_num), h2⟩

/-- C5 (code bug): `renderToBuffer` contains no `InvalidConfig` check at
all. At `bpm = -1` (every float step below is exact, so the `ℚ` model is
bit-faithful) the code runs straight through the length computation and
hands the host constructor the negative frame count `-42291900`; any
resulting failure is the host allocator's, mid-computation — not a
rejection at the render call. (At `bpm = 0`, JS `rowDur = Infinity` makes
`estimatedSeconds = secondsLimit` and the render simply succeeds.) -/
theorem C5_no_invalid_config_check :
    (renderToBuffer makePattern (-1) 120).length = -42291900 := by
  show renderFrameCount (makePattern.headD []).length (-1) 120 = _
  rw [show (makePattern.headD []).length = 64 from by decide]
  rw [renderFrameCount, estimatedSeconds, rowDur, renderSampleRate]
  rw [min_eq_right (by norm_num)]
  norm_num
  rw [show (-42291900 : ℚ) = ((-42291900 : ℤ) : ℚ) by norm_num, Int.ceil_intCast]

/-! ## Theorems: WavEncoder (claims C2, C6) -/

lemma writeString_RIFF : writeString "RIFF" = [82, 73, 70, 70] := by decide

lemma writeString_WAVE : writeString "WAVE" = [87, 65, 86, 69] := by decide

lemma writeString_fmt : writeString "fmt " = [102, 109, 116, 32] := by decide

lemma writeString_data : writeString "data" = [100, 97, 116, 97] := by decide

/-- The encoder output as one explicit byte stream: 44 header bytes, then
the interleaved 16-bit little-endian sample data. -/
lemma audioBufferToWav_bytes (b : PCMBuffer) :
    audioBufferToWav b =
      82 ::
      73 ::
      70 ::
      70 ::
      (36 + (interleave b).length * 2) % 256 ::
      (36 + (interleave b).length * 2) / 256 % 256 ::
      (36 + (interleave b).length * 2) / 65536 % 256 ::
      (36 + (interleave b).length * 2) / 16777216 % 256 ::
      87 ::
      65 ::
      86 ::
      69 ::
      102 ::
      109 ::
      116 ::
      32 ::
      16 ::
      0 ::
      0 ::
      0 ::
      1 ::
      0 ::
      b.numberOfChannels % 256 ::
      b.numberOfChannels / 256 % 256 ::
      b.sampleRate % 256 ::
      b.sampleRate / 256 % 256 ::
      b.sampleRate / 65536 % 256 ::
      b.sampleRate / 16777216 % 256 ::
      (b.sampleRate * (b.numberOfChannels * 2)) % 256 ::
      (b.sampleRate * (b.numberOfChannels * 2)) / 256 % 256 ::
      (b.sampleRate * (b.numberOfChannels * 2)) / 65536 % 256 ::
      (b.sampleRate * (b.numberOfChannels * 2)) / 16777216 % 256 ::
      (b.numberOfChannels * 2) % 256 ::
      (b.numberOfChannels * 2) / 256 % 256 ::
      16 ::
      0 ::
      100 ::
      97 ::
      116 ::
      97 ::
      ((interleave b).length * 2) % 256 ::
      ((interleave b).length * 2) / 256 % 256 ::
      ((interleave b).length * 2) / 65536 % 256 ::
      ((interleave b).length * 2) / 16777216 % 256 ::
      ((interleave b).map fun x => int16le (sampleToInt16 x)).flatten := by
  simp [audioBufferToWav, writeString_RIFF, writeString_WAVE, writeString_fmt,
    writeString_data, uint32le, uint16le]

lemma length_flatMap_const (f : ℕ → List ℚ) (k : ℕ) (hf : ∀ j, (f j).length = k) :
    ∀ n : ℕ, ((List.range n).flatMap f).length = n * k := by
  intro n
  induction n with
  | zero => simp
  | succ n ih =>
    rw [List.range_succ, List.flatMap_append, List.length_append, ih]
    simp [hf]
    ring

lemma flatMap_range_getD (f : ℕ → List ℚ) (k : ℕ) (hf : ∀ j, (f j).length = k) :
    ∀ n i c : ℕ, i < n → c < k →
      ((List.range n).flatMap f).getD (i * k + c) 0 = (f i).getD c 0 := by
  intro n
  induction n with
  | zero => intro i c hi _; exact absurd hi (by omega)
  | succ n ih =>
    intro i c hi hc
    rw [List.range_succ, List.flatMap_append]
    rcases Nat.lt_or_ge i n with h | h
    · rw [List.getD_append]
      · exact ih i c h hc
      · rw [length_flatMap_const f k hf]
        have h1 : i + 1 ≤ n := h
        have h2 : (i + 1) * k ≤ n * k := Nat.mul_le_mul_right k h1
        have h3 : i * k + k ≤ n * k := by linarith [h2]
        omega
    · have hin : i = n := by omega
      subst hin
      rw [List.getD_append_right]
      · rw [length_flatMap_const f k hf]
        simp
      · rw [length_flatMap_const f k hf]
        omega

/-- The interleaved array has `frameCount * numberOfChannels` entries. -/
lemma length_interleave (b : PCMBuffer) :
    (interleave b).length = b.length * b.numberOfChannels :=
  length_flatMap_const _ _ (fun _ => by simp [PCMBuffer.numberOfChannels]) _

/-- Interleaving is frame-major: entry `i * numberOfChannels + c` is frame
`i` of channel `c`. -/
lemma interleave_getD (b : PCMBuffer) (i c : ℕ) (hi : i < b.length)
    (hc : c < b.numberOfChannels) :
    (interleave b).getD (i * b.numberOfChannels + c) 0 =
      (b.channelData.getD c []).getD i 0 := by
  rw [interleave,
    flatMap_range_getD _ _ (fun _ => by simp [PCMBuffer.numberOfChannels]) _ _ _ hi hc]
  have hc' : c < b.channelData.length := hc
  rw [List.getD_eq_getElem _ _ (by simpa using hc'), List.getElem_map,
    List.getD_eq_getElem _ _ hc']

/-- Each encoded sample contributes exactly two bytes. -/
lemma length_flatten_samples (l : List ℚ) :
    ((l.map fun x => int16le (sampleToInt16 x)).flatten).length = 2 * l.length := by
  induction l with
  | nil => rfl
  | cons x xs ih =>
    rw [List.map_cons, List.flatten_cons, List.length_append, ih]
    simp [int16le, uint16le]
    ring

/-- C2: WAV encoding is total on valid PCM buffers and produces a 44-byte
RIFF/WAVE header — "RIFF" tag, RIFF size field `36 + dataByteCount`,
"WAVE" form, "fmt " sub-chunk declaring linear PCM (format 1) at 16 bits
with the buffer's channel count and sample rate verbatim — followed by a
"data" sub-chunk whose size field is the true byte count
`frameCount * channels * 2` and whose body is the frame-major interleaved
samples as 16-bit little-endian words, each float sample clamped to
`[-1, 1]` and scaled by 32767 (non-negative) or 32768 (negative) before
truncation. -/
theorem C2_wav_encoding (b : PCMBuffer) (_hv : b.Valid)
    (hsz : 36 + 2 * (b.length * b.numberOfChannels) < 4294967296)
    (hch : b.numberOfChannels < 65536)
    (hsr : b.sampleRate < 4294967296) :
    (audioBufferToWav b).length = 44 + 2 * (b.length * b.numberOfChannels) ∧
    (audioBufferToWav b).take 4 = [82, 73, 70, 70] ∧
    readUint32le (audioBufferToWav b) 4 = 36 + 2 * (b.length * b.numberOfChannels) ∧
    ((audioBufferToWav b).drop 8).take 4 = [87, 65, 86, 69] ∧
    ((audioBufferToWav b).drop 12).take 4 = [102, 109, 116, 32] ∧
    readUint16le (audioBufferToWav b) 20 = 1 ∧
    readUint16le (audioBufferToWav b) 22 = b.numberOfChannels ∧
    readUint32le (audioBufferToWav b) 24 = b.sampleRate ∧
    readUint16le (audioBufferToWav b) 34 = 16 ∧
    ((audioBufferToWav b).drop 36).take 4 = [100, 97, 116, 97] ∧
    readUint32le (audioBufferToWav b) 40 = b.length * b.numberOfChannels * 2 ∧
    (audioBufferToWav b).drop 44 =
      ((interleave b).map fun x => int16le (sampleToInt16 x)).flatten ∧
    (∀ i c : ℕ, i < b.length → c < b.numberOfChannels →
      (interleave b).getD (i * b.numberOfChannels + c) 0 =
        (b.channelData.getD c []).getD i 0) ∧
    (∀ x : ℚ, sampleToInt16 x = sampleToInt16Spec x) := by
  have hL := length_interleave b
  refine ⟨?_, ?_, ?_, ?_, ?_, ?_, ?_, ?_, ?_, ?_, ?_, ?_,
    fun i c hi hc => interleave_getD b i c hi hc, ?_⟩
  · conv_lhs => rw [← List.take_append_drop 44 (audioBufferToWav b)]
    rw [List.length_append]
    rw [show (audioBufferToWav b).drop 44 =
        ((interleave b).map fun x => int16le (sampleToInt16 x)).flatten from by
      rw [audioBufferToWav_bytes]; rfl]
    rw [length_flatten_samples, hL]
    rw [show ((audioBufferToWav b).take 44).length = 44 from by
      rw [audioBufferToWav_bytes]; rfl]
  · rw [audioBufferToWav_bytes]; rfl
  · have base : readUint32le (audioBufferToWav b) 4 =
        (36 + (interleave b).length * 2) % 256 +
          256 * ((36 + (interleave b).length * 2) / 256 % 256) +
          65536 * ((36 + (interleave b).length * 2) / 65536 % 256) +
          16777216 * ((36 + (interleave b).length * 2) / 16777216 % 256) := by
      rw [audioBufferToWav_bytes]; rfl
    rw [base, hL]
    omega
  · rw [audioBufferToWav_bytes]; rfl
  · rw [audioBufferToWav_bytes]; rfl
  · rw [audioBufferToWav_bytes]; rfl
  · have base : readUint16le (audioBufferToWav b) 22 =
        b.numberOfChannels % 256 + 256 * (b.numberOfChannels / 256 % 256) := by
      rw [audioBufferToWav_bytes]; rfl
    rw [base]
    omega
  · have base : readUint32le (audioBufferToWav b) 24 =
        b.sampleRate % 256 + 256 * (b.sampleRate / 256 % 256) +
          65536 * (b.sampleRate / 65536 % 256) +
          16777216 * (b.sampleRate / 16777216 % 256) := by
      rw [audioBufferToWav_bytes]; rfl
    rw [base]
    omega
  · rw [audioBufferToWav_bytes]; rfl
  · rw [audioBufferToWav_bytes]; rfl
  · have base : readUint32le (audioBufferToWav b) 40 =
        ((interleave b).length * 2) % 256 +
          256 * (((interleave b).length * 2) / 256 % 256) +
          65536 * (((interleave b).length * 2) / 65536 % 256) +
          16777216 * (((interleave b).length * 2) / 16777216 % 256) := by
      rw [audioBufferToWav_bytes]; rfl
    rw [base, hL]
    omega
  · rw [audioBufferToWav_bytes]; rfl
  · intro x
    simp only [sampleToInt16, sampleToInt16Spec, clampSample]
    rcases lt_or_le (max (-1) (min 1 x)) 0 with h | h
    · rw [if_pos h, if_neg (not_le.mpr h)]
    · rw [if_neg (not_lt.mpr h), if_pos h]

theorem C2_witness :
    wavDemoBuffer.Valid ∧
    (audioBufferToWav wavDemoBuffer).length =
      44 + 2 * (wavDemoBuffer.length * wavDemoBuffer.numberOfChannels) ∧
    readUint16le (audioBufferToWav wavDemoBuffer) 22 = wavDemoBuffer.numberOfChannels ∧
    readUint32le (audioBufferToWav wavDemoBuffer) 24 = wavDemoBuffer.sampleRate ∧
    (audioBufferToWav wavDemoBuffer).drop 44 =
      ((interleave wavDemoBuffer).map fun x => int16le (sampleToInt16 x)).flatten := by
  obtain ⟨h1, _, _, _, _, _, h7, h8, _, _, _, h12, _, _⟩ :=
    C2_wav_encoding wavDemoBuffer (by decide) (by decide) (by decide) (by decide)
  exact ⟨by decide, h1, h7, h8, h12⟩

/-- C6 (code bug): no clamp pass exists in `renderToBuffer` — it returns
the host-rendered additive mix as-is (see `renderToBuffer`); the only
clamp to `[-1, 1]` in the export pipeline is the per-sample clamp inside
`audioBufferToWav`. Evaluated at out-of-range renderer output `±3/2`,
that encoder-side clamp saturates to full scale instead of passing the
overflow through. -/
theorem C6_clamp_only_in_encoder :
    clampSample (3 / 2) = 1 ∧ clampSample (-3 / 2) = -1 ∧
    sampleToInt16 (3 / 2) = 32767 ∧ sampleToInt16 (-3 / 2) = -32768 := by
  have hc1 : clampSample (3 / 2) = 1 := by
    rw [clampSample]
    norm_num
  have hc2 : clampSample (-3 / 2) = -1 := by
    rw [clampSample]
    norm_num
  refine ⟨hc1, hc2, ?_, ?_⟩
  · rw [sampleToInt16, hc1]
    norm_num [jsTrunc]
  · rw [sampleToInt16, hc2]
    norm_num [jsTrunc]

/-! ## Theorems: SpectralAnalyzer band energies (claims C8, C10) -/

lemma getD_set_ne (l : List ℕ) (k v i : ℕ) (h : i ≠ k) :
    (l.set k v).getD i 0 = l.getD i 0 := by
  rw [List.getD_eq_getElem?_getD, List.getD_eq_getElem?_getD,
    List.getElem?_set_ne (by omega)]

/-- Updating a bin outside a band's summation window leaves that band's
energy unchanged. -/
lemma energy_set_ne (arr : List ℕ) (k v s e : ℕ)
    (hk : k ∉ Finset.Ico s (min e arr.length)) :
    energy (arr.set k v) (s, e) = energy arr (s, e) := by
  rw [energy, energy]
  rw [List.length_set arr k v]
  congr 1
  refine Finset.sum_congr rfl fun i hi => ?_
  have hik : i ≠ k := fun he => hk (he ▸ hi)
  rw [getD_set_ne arr k v i hik]

lemma demoMagnitudes_length : demoMagnitudes.length = 1024 := by
  rw [demoMagnitudes, List.length_append, List.length_replicate, List.length_replicate]

lemma demoMagnitudes_tail_zero :
    ∀ i ∈ Finset.Ico 11 1024, demoMagnitudes.getD i 0 = 0 := by
  intro i hi
  simp only [Finset.mem_Ico] at hi
  rw [demoMagnitudes,
    List.getD_append_right _ _ _ _ (by simp only [List.length_replicate]; omega)]
  simp only [List.length_replicate]
  rcases Nat.lt_or_ge (i - 11) 1013 with h | h
  · rw [List.getD_eq_getElem _ _ (by simp only [List.length_replicate]; exact h),
      List.getElem_replicate]
  · rw [List.getD_eq_default _ _ (by simp only [List.length_replicate]; exact h)]

/-- C8: the analyzer's per-band average energy runs over the fixed named
bin ranges BASS = [0, 64), MID = [65, 256), HIGH = [257, 1024) of `bands`;
for a 1024-bin magnitude array whose energy is concentrated in bins 0-10,
the BASS average carries all of it (the concentrated sum over the fixed
64-bin window — `11 * peak / 64` for a flat peak — strictly positive and
strictly above the other bands whenever the peak is) while MID and HIGH
are exactly zero. -/
theorem C8_band_energy (arr : List ℕ) (hlen : arr.length = 1024)
    (hconc : ∀ i ∈ Finset.Ico 11 1024, arr.getD i 0 = 0) :
    energy arr (0, 64) = (∑ i in Finset.range 11, (arr.getD i 0 : ℚ)) / 64 ∧
    energy arr (65, 256) = 0 ∧
    energy arr (257, 1024) = 0 ∧
    (∀ p : ℕ, (∀ i ∈ Finset.range 11, arr.getD i 0 = p) →
      energy arr (0, 64) = 11 * p / 64) ∧
    (∀ p : ℕ, 0 < p → (∃ i ∈ Finset.range 11, arr.getD i 0 = p) →
      0 < energy arr (0, 64) ∧
      energy arr (65, 256) < energy arr (0, 64) ∧
      energy arr (257, 1024) < energy arr (0, 64)) := by
  have hsum : (∑ i in Finset.Ico 0 64, (arr.getD i 0 : ℚ)) =
      ∑ i in Finset.range 11, (arr.getD i 0 : ℚ) := by
    rw [Finset.range_eq_Ico]
    refine (Finset.sum_subset ?_ ?_).symm
    · intro x hx
      simp only [Finset.mem_Ico] at hx ⊢
      omega
    · intro x hx hnx
      simp only [Finset.mem_Ico] at hx hnx
      have hz : arr.getD x 0 = 0 := hconc x (by simp only [Finset.mem_Ico]; omega)
      rw [hz]
      norm_num
  have hBASS : energy arr (0, 64) = (∑ i in Finset.range 11, (arr.getD i 0 : ℚ)) / 64 := by
    rw [energy, show min 64 arr.length = 64 from by rw [hlen]; omega]
    rw [show Finset.Ico (0, (64 : ℕ)).1 64 = Finset.Ico 0 64 from rfl, hsum]
    norm_num
  have hMID : energy arr (65, 256) = 0 := by
    rw [energy, show min 256 arr.length = 256 from by rw [hlen]; omega]
    rw [Finset.sum_eq_zero]
    · norm_num
    · intro i hi
      simp only [Finset.mem_Ico] at hi
      have hz : arr.getD i 0 = 0 := hconc i (by simp only [Finset.mem_Ico]; omega)
      rw [hz]
      norm_num
  have hHIGH : energy arr (257, 1024) = 0 := by
    rw [energy, show min 1024 arr.length = 1024 from by rw [hlen]; omega]
    rw [Finset.sum_eq_zero]
    · norm_num
    · intro i hi
      simp only [Finset.mem_Ico] at hi
      have hz : arr.getD i 0 = 0 := hconc i (by simp only [Finset.mem_Ico]; omega)
      rw [hz]
      norm_num
  refine ⟨hBASS, hMID, hHIGH, ?_, ?_⟩
  · intro p hp
    rw [hBASS, Finset.sum_congr rfl fun i hi => by rw [hp i hi]]
    rw [Finset.sum_const, Finset.card_range, nsmul_eq_mul]
    norm_num
  · intro p hp0 hex
    obtain ⟨i, hi, he⟩ := hex
    have hpos : 0 < energy arr (0, 64) := by
      rw [hBASS]
      apply div_pos _ (by norm_num)
      have hle : (arr.getD i 0 : ℚ) ≤ ∑ j in Finset.range 11, (arr.getD j 0 : ℚ) :=
        Finset.single_le_sum (f := fun j => (arr.getD j 0 : ℚ)) (fun j _ => by positivity) hi
      have hp' : (0 : ℚ) < p := by exact_mod_cast hp0
      rw [he] at hle
      linarith
    exact ⟨hpos, by rw [hMID]; exact hpos, by rw [hHIGH]; exact hpos⟩

theorem C8_witness :
    energy demoMagnitudes (0, 64) = 11 * 255 / 64 ∧
    energy demoMagnitudes (65, 256) = 0 ∧
    energy demoMagnitudes (257, 1024) = 0 := by
  obtain ⟨h1, h2, h3, h4, h5⟩ :=
    C8_band_energy demoMagnitudes demoMagnitudes_length demoMagnitudes_tail_zero
  exact ⟨h4 255 (by decide), h2, h3⟩

/-- C10: each band's sum is end-exclusive — BASS sums bins [0, 64), MID
[65, 256), HIGH [257, 1024) — while its average divides by the full
`end - start` (64, 191, 767); consequently bins 64 and 256 contribute to
no band: overwriting either leaves every band energy unchanged. -/
theorem C10_boundary_bins_excluded (arr : List ℕ) (hlen : arr.length = 1024) (v : ℕ) :
    (∀ r ∈ bands, energy (arr.set 64 v) r.2 = energy arr r.2 ∧
      energy (arr.set 256 v) r.2 = energy arr r.2) ∧
    energy arr (0, 64) = (∑ i in Finset.Ico 0 64, (arr.getD i 0 : ℚ)) / 64 ∧
    energy arr (65, 256) = (∑ i in Finset.Ico 65 256, (arr.getD i 0 : ℚ)) / 191 ∧
    energy arr (257, 1024) = (∑ i in Finset.Ico 257 1024, (arr.getD i 0 : ℚ)) / 767 := by
  refine ⟨?_, ?_, ?_, ?_⟩
  · intro r hr
    fin_cases hr <;>
      exact ⟨energy_set_ne arr 64 v _ _ (by rw [hlen]; simp only [Finset.mem_Ico]; omega),
             energy_set_ne arr 256 v _ _ (by rw [hlen]; simp only [Finset.mem_Ico]; omega)⟩
  · rw [energy, show min 64 arr.length = 64 from by rw [hlen]; omega]
    norm_num
  · rw [energy, show min 256 arr.length = 256 from by rw [hlen]; omega]
    norm_num
  · rw [energy, show min 1024 arr.length = 1024 from by rw [hlen]; omega]
    norm_num

theorem C10_witness :
    energy (demoMagnitudes.set 64 99) (0, 64) = energy demoMagnitudes (0, 64) ∧
    energy (demoMagnitudes.set 256 99) (65, 256) = energy demoMagnitudes (65, 256) ∧
    energy demoMagnitudes (65, 256) =
      (∑ i in Finset.Ico 65 256, (demoMagnitudes.getD i 0 : ℚ)) / 191 := by
  obtain ⟨hset, _, hmid, _⟩ :=
    C10_boundary_bins_excluded demoMagnitudes demoMagnitudes_length 99
  exact ⟨(hset ("BASS", 0, 64) (by decide)).1, (hset ("MID", 65, 256) (by decide)).2, hmid⟩

/-! ## Theorems: Mp3Encoder (claim C3) -/

lemma chunksOf_nil : chunksOf [] = [] := by
  rw [chunksOf]

lemma chunksOf_cons (a : ℤ) (t : List ℤ) :
    chunksOf (a :: t) = (a :: t).take chunkSize :: chunksOf ((a :: t).drop chunkSize) := by
  rw [chunksOf]

lemma chunksOf_eq_nil_iff (l : List ℤ) : chunksOf l = [] ↔ l = [] := by
  cases l with
  | nil => simp [chunksOf_nil]
  | cons a t => simp [chunksOf_cons]

lemma chunksOf_flatten_aux :
    ∀ n (l : List ℤ), l.length ≤ n → (chunksOf l).flatten = l := by
  intro n
  induction n with
  | zero =>
    intro l hl
    have : l = [] := by cases l <;> simp_all
    subst this
    simp [chunksOf_nil]
  | succ n ih =>
    intro l hl
    cases l with
    | nil => simp [chunksOf_nil]
    | cons a t =>
      simp only [List.length_cons] at hl
      rw [chunksOf_cons, List.flatten_cons,
        ih ((a :: t).drop chunkSize) (by simp only [List.length_drop, List.length_cons, chunkSize]; omega)]
      exact List.take_append_drop _ _

/-- The chunks concatenate back to the full channel, in order. -/
lemma chunksOf_flatten (l : List ℤ) : (chunksOf l).flatten = l :=
  chunksOf_flatten_aux l.length l le_rfl

lemma chunksOf_full_aux :
    ∀ n (l : List ℤ), l.length ≤ n → ∀ k, k + 1 < (chunksOf l).length →
      ((chunksOf l).getD k []).length = chunkSize := by
  intro n
  induction n with
  | zero =>
    intro l hl k hk
    have : l = [] := by cases l <;> simp_all
    subst this
    simp [chunksOf_nil] at hk
  | succ n ih =>
    intro l hl k hk
    cases l with
    | nil => simp [chunksOf_nil] at hk
    | cons a t =>
      simp only [List.length_cons] at hl
      rw [chunksOf_cons] at hk ⊢
      cases k with
      | zero =>
        rw [List.getD_cons_zero, List.length_take]
        simp only [List.length_cons] at hk ⊢
        have hne : chunksOf ((a :: t).drop chunkSize) ≠ [] := by
          intro he
          rw [he] at hk
          simp at hk
        have hdrop : (a :: t).drop chunkSize ≠ [] := by
          intro he
          exact hne ((chunksOf_eq_nil_iff _).mpr he)
        have : chunkSize < (a :: t).length := by
          by_contra hcon
          exact hdrop (List.drop_eq_nil_of_le (by omega))
        simp only [List.length_cons] at this
        omega
      | succ k =>
        rw [List.getD_cons_succ]
        refine ih ((a :: t).drop chunkSize) (by simp only [List.length_drop, List.length_cons, chunkSize]; omega) k ?_
        simp only [List.length_cons] at hk
        omega

/-- Every chunk but (possibly) the final one holds exactly 1152 samples. -/
lemma chunksOf_full (l : List ℤ) :
    ∀ k, k + 1 < (chunksOf l).length → ((chunksOf l).getD k []).length = chunkSize :=
  chunksOf_full_aux l.length l le_rfl

lemma chunksOf_le_aux :
    ∀ n (l : List ℤ), l.length ≤ n → ∀ ch ∈ chunksOf l,
      ch.length ≤ chunkSize ∧ ch ≠ [] := by
  intro n
  induction n with
  | zero =>
    intro l hl ch hch
    have : l = [] := by cases l <;> simp_all
    subst this
    simp [chunksOf_nil] at hch
  | succ n ih =>
    intro l hl ch hch
    cases l with
    | nil => simp [chunksOf_nil] at hch
    | cons a t =>
      simp only [List.length_cons] at hl
      rw [chunksOf_cons] at hch
      rcases List.mem_cons.mp hch with he | hm
      · subst he
        constructor
        · rw [List.length_take]
          omega
        · have hpos : 0 < ((a :: t).take chunkSize).length := by
            rw [List.length_take]
            simp [chunkSize]
          exact List.length_pos.mp hpos
      · exact ih ((a :: t).drop chunkSize) (by simp only [List.length_drop, List.length_cons, chunkSize]; omega) ch hm

lemma encodeLoop_nil {σ : Type} (c : Mp3Codec σ) (st : Bool) (s : σ) (r : List ℤ) :
    encodeLoop c st s [] r = (s, []) := by
  rw [encodeLoop]

lemma encodeLoop_cons {σ : Type} (c : Mp3Codec σ) (st : Bool) (s : σ) (a : ℤ)
    (t r : List ℤ) :
    encodeLoop c st s (a :: t) r =
      ((encodeLoop c st
          (if st then c.encodeStereo s ((a :: t).take chunkSize) (r.take chunkSize)
            else c.encodeMono s ((a :: t).take chunkSize)).1
          ((a :: t).drop chunkSize) (r.drop chunkSize)).1,
        if (if st then c.encodeStereo s ((a :: t).take chunkSize) (r.take chunkSize)
            else c.encodeMono s ((a :: t).take chunkSize)).2.isEmpty then
          (encodeLoop c st
            (if st then c.encodeStereo s ((a :: t).take chunkSize) (r.take chunkSize)
              else c.encodeMono s ((a :: t).take chunkSize)).1
            ((a :: t).drop chunkSize) (r.drop chunkSize)).2
        else
          (if st then c.encodeStereo s ((a :: t).take chunkSize) (r.take chunkSize)
            else c.encodeMono s ((a :: t).take chunkSize)).2 ::
          (encodeLoop c st
            (if st then c.encodeStereo s ((a :: t).take chunkSize) (r.take chunkSize)
              else c.encodeMono s ((a :: t).take chunkSize)).1
            ((a :: t).drop chunkSize) (r.drop chunkSize)).2) := by
  rw [encodeLoop]

lemma encodeTrace_nil {σ : Type} (c : Mp3Codec σ) (st : Bool) (s : σ) (r : List ℤ) :
    encodeTrace c st s [] r = (s, []) := by
  rw [encodeTrace]

lemma encodeTrace_cons {σ : Type} (c : Mp3Codec σ) (st : Bool) (s : σ) (a : ℤ)
    (t r : List ℤ) :
    encodeTrace c st s (a :: t) r =
      ((encodeTrace c st
          (if st then c.encodeStereo s ((a :: t).take chunkSize) (r.take chunkSize)
            else c.encodeMono s ((a :: t).take chunkSize)).1
          ((a :: t).drop chunkSize) (r.drop chunkSize)).1,
        (if st then c.encodeStereo s ((a :: t).take chunkSize) (r.take chunkSize)
          else c.encodeMono s ((a :: t).take chunkSize)).2 ::
        (encodeTrace c st
          (if st then c.encodeStereo s ((a :: t).take chunkSize) (r.take chunkSize)
            else c.encodeMono s ((a :: t).take chunkSize)).1
          ((a :: t).drop chunkSize) (r.drop chunkSize)).2) := by
  rw [encodeTrace]

/-- The code's loop is the full call trace with the empty fragments
dropped: same final state, and exactly the non-empty fragments in call
order. -/
lemma encodeLoop_eq_trace_aux {σ : Type} (c : Mp3Codec σ) (st : Bool) :
    ∀ n (l : List ℤ), l.length ≤ n → ∀ (r : List ℤ) (s : σ),
      encodeLoop c st s l r =
        ((encodeTrace c st s l r).1,
          (encodeTrace c st s l r).2.filter (fun f => !f.isEmpty)) := by
  intro n
  induction n with
  | zero =>
    intro l hl r s
    have : l = [] := by cases l <;> simp_all
    subst this
    rw [encodeLoop_nil, encodeTrace_nil]
    rfl
  | succ n ih =>
    intro l hl r s
    cases l with
    | nil =>
      rw [encodeLoop_nil, encodeTrace_nil]
      rfl
    | cons a t =>
      simp only [List.length_cons] at hl
      rw [encodeLoop_cons, encodeTrace_cons]
      rw [ih ((a :: t).drop chunkSize)
        (by simp only [List.length_drop, List.length_cons, chunkSize]; omega)]
      simp only [List.filter_cons]
      cases hse : (if st then c.encodeStereo s ((a :: t).take chunkSize) ((r).take chunkSize)
          else c.encodeMono s ((a :: t).take chunkSize)).2.isEmpty with
      | true => simp [hse]
      | false => simp [hse]

lemma encodeLoop_eq_trace {σ : Type} (c : Mp3Codec σ) (st : Bool) (s : σ)
    (l r : List ℤ) :
    encodeLoop c st s l r =
      ((encodeTrace c st s l r).1,
        (encodeTrace c st s l r).2.filter (fun f => !f.isEmpty)) :=
  encodeLoop_eq_trace_aux c st l.length l le_rfl r s

/-- The stereo trace is exactly the codec run over the zipped chunk lists
of the two channels: successive 1152-sample chunks of each channel, in
increasing order, one codec call per chunk pair. -/
lemma encodeTrace_eq_runChunkPairs_aux {σ : Type} (c : Mp3Codec σ) (st : Bool) :
    ∀ n (l : List ℤ), l.length ≤ n → ∀ (r : List ℤ), r.length = l.length → ∀ (s : σ),
      encodeTrace c st s l r =
        runChunkPairs c st s ((chunksOf l).zip (chunksOf r)) := by
  intro n
  induction n with
  | zero =>
    intro l hl r hr s
    have : l = [] := by cases l <;> simp_all
    subst this
    rw [encodeTrace_nil, chunksOf_nil]
    rfl
  | succ n ih =>
    intro l hl r hr s
    cases l with
    | nil =>
      rw [encodeTrace_nil, chunksOf_nil]
      rfl
    | cons a t =>
      simp only [List.length_cons] at hl
      cases r with
      | nil => simp at hr
      | cons b u =>
        rw [encodeTrace_cons, chunksOf_cons, chunksOf_cons]
        simp only [List.zip_cons_cons, runChunkPairs]
        rw [ih ((a :: t).drop chunkSize)
          (by simp only [List.length_drop, List.length_cons, chunkSize]; omega)
          ((b :: u).drop chunkSize)
          (by simp only [List.length_drop]; omega) _]
        rfl

/-- With `stereo = false` the loop never touches the right channel: it is
the mono-only run over the chunk list. -/
lemma encodeTrace_false_eq_mono_aux {σ : Type} (c : Mp3Codec σ) :
    ∀ n (l : List ℤ), l.length ≤ n → ∀ (r : List ℤ) (s : σ),
      encodeTrace c false s l r = runChunksMono c s (chunksOf l) := by
  intro n
  induction n with
  | zero =>
    intro l hl r s
    have : l = [] := by cases l <;> simp_all
    subst this
    rw [encodeTrace_nil, chunksOf_nil]
    rfl
  | succ n ih =>
    intro l hl r s
    cases l with
    | nil =>
      rw [encodeTrace_nil, chunksOf_nil]
      rfl
    | cons a t =>
      simp only [List.length_cons] at hl
      rw [encodeTrace_cons, chunksOf_cons]
      simp only [Bool.false_eq_true, if_false, runChunksMono]
      rw [ih ((a :: t).drop chunkSize)
        (by simp only [List.length_drop, List.length_cons, chunkSize]; omega)]

/-- `left[j] = samples[2j]`. -/
lemma leftSamples_getD (samples : List ℤ) (j : ℕ) (hj : j < samples.length / 2) :
    (leftSamples samples).getD j 0 = samples.getD (2 * j) 0 := by
  rw [leftSamples, List.getD_eq_getElem _ _ (by simpa using hj), List.getElem_map,
    List.getElem_range]

/-- `right[j] = samples[2j + 1]`. -/
lemma rightSamples_getD (samples : List ℤ) (j : ℕ) (hj : j < samples.length / 2) :
    (rightSamples samples).getD j 0 = samples.getD (2 * j + 1) 0 := by
  rw [rightSamples, List.getD_eq_getElem _ _ (by simpa using hj), List.getElem_map,
    List.getElem_range]

/-- `new Blob(mp3Data)`: with the flush fragment appended last (when
non-empty), the bytes are the concatenated fragments followed by the
flush bytes. -/
lemma flatten_with_flush (frags : List (List ℕ)) (t : List ℕ) :
    (frags ++ if t.isEmpty then [] else [t]).flatten = frags.flatten ++ t := by
  cases t with
  | nil => simp
  | cons b bs => simp [List.flatten_append]

lemma flatten_ite_singleton (t : List ℕ) :
    (if t = [] then ([] : List (List ℕ)) else [t]).flatten = t := by
  by_cases h : t = []
  · simp [h]
  · simp [h]

/-- C3: the MP3 encoder reads the WAV header, views the data as int16
samples, and (stereo) de-interleaves them into `left[j] = samples[2j]`,
`right[j] = samples[2j+1]`; it hands the external codec the successive
1152-samples-per-channel chunks of each channel in increasing sample
order (every chunk except possibly the final one holds exactly 1152
samples, and the chunks concatenate back to the channel), one call per
chunk pair; mono uses only the single-channel call; the output is the
concatenation of the non-empty emitted fragments in call order, with the
flush fragment — obtained by flushing exactly once, after the last
chunk — last. -/
theorem C3_mp3_framing {σ : Type} (c : Mp3Codec σ) (wav : List ℕ) :
    (readUint16le wav 22 = 2 →
      (int16sOfBytes (wav.drop 44)).length % 2 = 0 →
      ((chunksOf (leftSamples (int16sOfBytes (wav.drop 44)))).flatten =
          leftSamples (int16sOfBytes (wav.drop 44)) ∧
        (∀ k, k + 1 < (chunksOf (leftSamples (int16sOfBytes (wav.drop 44)))).length →
          ((chunksOf (leftSamples (int16sOfBytes (wav.drop 44)))).getD k []).length =
            1152) ∧
        (∀ ch ∈ chunksOf (leftSamples (int16sOfBytes (wav.drop 44))),
          ch.length ≤ 1152 ∧ ch ≠ []) ∧
        (∀ j, j < (int16sOfBytes (wav.drop 44)).length / 2 →
          (leftSamples (int16sOfBytes (wav.drop 44))).getD j 0 =
              (int16sOfBytes (wav.drop 44)).getD (2 * j) 0 ∧
            (rightSamples (int16sOfBytes (wav.drop 44))).getD j 0 =
              (int16sOfBytes (wav.drop 44)).getD (2 * j + 1) 0) ∧
        wavBlobToMp3Blob c wav =
          ((runChunkPairs c true (c.init 2 (readUint32le wav 24) 128)
              ((chunksOf (leftSamples (int16sOfBytes (wav.drop 44)))).zip
                (chunksOf (rightSamples (int16sOfBytes (wav.drop 44)))))).2.filter
            (fun f => !f.isEmpty)).flatten ++
          c.flush (runChunkPairs c true (c.init 2 (readUint32le wav 24) 128)
              ((chunksOf (leftSamples (int16sOfBytes (wav.drop 44)))).zip
                (chunksOf (rightSamples (int16sOfBytes (wav.drop 44)))))).1)) ∧
    (readUint16le wav 22 = 1 →
      ((chunksOf (int16sOfBytes (wav.drop 44))).flatten = int16sOfBytes (wav.drop 44) ∧
        wavBlobToMp3Blob c wav =
          ((runChunksMono c (c.init 1 (readUint32le wav 24) 128)
              (chunksOf (int16sOfBytes (wav.drop 44)))).2.filter
            (fun f => !f.isEmpty)).flatten ++
          c.flush (runChunksMono c (c.init 1 (readUint32le wav 24) 128)
              (chunksOf (int16sOfBytes (wav.drop 44)))).1)) := by
  constructor
  · intro h2 _heven
    refine ⟨chunksOf_flatten _, chunksOf_full _, chunksOf_le_aux _ _ le_rfl,
      fun j hj => ⟨leftSamples_getD _ _ hj, rightSamples_getD _ _ hj⟩, ?_⟩
    simp only [wavBlobToMp3Blob, h2]
    norm_num
    rw [flatten_ite_singleton]
    rw [encodeLoop_eq_trace]
    rw [encodeTrace_eq_runChunkPairs_aux c true
      (leftSamples (int16sOfBytes (wav.drop 44))).length
      (leftSamples (int16sOfBytes (wav.drop 44))) le_rfl
      (rightSamples (int16sOfBytes (wav.drop 44)))
      (by simp [leftSamples, rightSamples])]
  · intro h1
    refine ⟨chunksOf_flatten _, ?_⟩
    simp only [wavBlobToMp3Blob, h1]
    norm_num
    rw [show ((1 : ℕ) == 2) = false from rfl]
    rw [flatten_ite_singleton]
    rw [encodeLoop_eq_trace]
    rw [encodeTrace_false_eq_mono_aux c
      (int16sOfBytes (wav.drop 44)).length
      (int16sOfBytes (wav.drop 44)) le_rfl]

theorem C3_witness :
    readUint16le wavDemoBytes 22 = 2 ∧
    (chunksOf (leftSamples (int16sOfBytes (wavDemoBytes.drop 44)))).flatten =
      leftSamples (int16sOfBytes (wavDemoBytes.drop 44)) ∧
    wavBlobToMp3Blob demoCodec wavDemoBytes =
      ((runChunkPairs demoCodec true (demoCodec.init 2 (readUint32le wavDemoBytes 24) 128)
          ((chunksOf (leftSamples (int16sOfBytes (wavDemoBytes.drop 44)))).zip
            (chunksOf (rightSamples (int16sOfBytes (wavDemoBytes.drop 44)))))).2.filter
        (fun f => !f.isEmpty)).flatten ++
      demoCodec.flush (runChunkPairs demoCodec true
          (demoCodec.init 2 (readUint32le wavDemoBytes 24) 128)
          ((chunksOf (leftSamples (int16sOfBytes (wavDemoBytes.drop 44)))).zip
            (chunksOf (rightSamples (int16sOfBytes (wavDemoBytes.drop 44)))))).1 := by
  obtain ⟨hs, _⟩ := C3_mp3_framing demoCodec wavDemoBytes
  obtain ⟨hflat, _, _, _, hout⟩ := hs (by decide) (by decide)
  exact ⟨by decide, hflat, hout⟩

end TrackerVisualizer
